import Mathlib

/-!
Verification development for the personal-assistant CLI (`main.py`).

The program manages four collections (notes, tasks, contacts, finance
records), each persisted as a JSON array of flat field maps.  We embed the
data model and the store operations shallowly: Python objects become Lean
structures, the JSON field maps become parallel `...Dict` structures,
`datetime.now().strftime(...)` becomes an explicit `now : String`
parameter, and the backing file becomes an explicit `FileState` value
(`missing` / `malformed` / `wellFormed data`).  Functions that can raise
in Python return `Except`.
-/

set_option autoImplicit false

/-! ### Python truthiness and helpers -/

/-- Truthiness of a Python string: `bool(s)` is `False` exactly on `""`. -/
def pyTruthyStr (s : String) : Bool := !s.isEmpty

/-- Truthiness of an optional Python string (`None` and `""` are falsy). -/
def pyTruthyOptStr : Option String → Bool
  | none => false
  | some s => pyTruthyStr s

/-- Python `s or d` for strings: `d` when `s` is falsy, else `s`. -/
def pyOrStr (s d : String) : String := if s.isEmpty then d else s

/-- Python `opt or d` where `opt` is `None` or a string. -/
def pyOrOptStr (o : Option String) (d : String) : String :=
  pyOrStr (o.getD "") d

/-- Python `max(xs, default=0)` over integer lists: the genuine maximum of a
nonempty list (which may be negative), and `0` for the empty list. -/
def pyMaxD0 : List Int → Int
  | [] => 0
  | x :: xs => xs.foldl max x

/-! ### Note (`class Note`) -/

/-- A `Note` object: integer id, title, content and a last-modified
timestamp string. -/
structure Note where
  id : Int
  title : String
  content : String
  timestamp : String
  deriving DecidableEq, Repr

/-- The `Note.__init__` constructor: `self.timestamp = timestamp or
self.current_timestamp()` replaces a falsy timestamp argument (`None` or
`""`) by the current time `now`. -/
def Note.init (now : String) (id : Int) (title content : String)
    (timestamp : Option String) : Note :=
  ⟨id, title, content, pyOrOptStr timestamp now⟩

/-- The flat field map produced by `Note.to_dict` (and stored in JSON). -/
structure NoteDict where
  id : Int
  title : String
  content : String
  timestamp : String
  deriving DecidableEq, Repr

/-- `Note.to_dict`. -/
def Note.toDict (n : Note) : NoteDict :=
  ⟨n.id, n.title, n.content, n.timestamp⟩

/-- `Note.from_dict`: calls the constructor on the stored fields, hence
re-applies the timestamp truthiness guard. -/
def Note.fromDict (now : String) (d : NoteDict) : Note :=
  Note.init now d.id d.title d.content (some d.timestamp)

/-! ### Task (`class Task`) -/

/-- A `Task` object.  `due_date` is `None` or a `DD-MM-YYYY` string (the
menu layer may also pass `""`). -/
structure TaskRec where
  id : Int
  title : String
  description : String
  done : Bool
  priority : String
  dueDate : Option String
  deriving DecidableEq, Repr

/-- The flat field map produced by `Task.to_dict`. -/
structure TaskDict where
  id : Int
  title : String
  description : String
  done : Bool
  priority : String
  dueDate : Option String
  deriving DecidableEq, Repr

/-- `Task.to_dict`. -/
def TaskRec.toDict (t : TaskRec) : TaskDict :=
  ⟨t.id, t.title, t.description, t.done, t.priority, t.dueDate⟩

/-- `Task.from_dict`: the constructor copies every field verbatim. -/
def TaskRec.fromDict (d : TaskDict) : TaskRec :=
  ⟨d.id, d.title, d.description, d.done, d.priority, d.dueDate⟩

/-! ### Contact (`class Contact`) -/

/-- A `Contact` object with optional phone and email. -/
structure Contact where
  id : Int
  name : String
  phone : Option String
  email : Option String
  deriving DecidableEq, Repr

/-- The flat field map produced by `Contact.to_dict`. -/
structure ContactDict where
  id : Int
  name : String
  phone : Option String
  email : Option String
  deriving DecidableEq, Repr

/-- `Contact.to_dict`. -/
def Contact.toDict (c : Contact) : ContactDict :=
  ⟨c.id, c.name, c.phone, c.email⟩

/-- `Contact.from_dict` (uses `data.get`, but `to_dict` always writes the
keys, so on stored data this is a verbatim copy). -/
def Contact.fromDict (d : ContactDict) : Contact :=
  ⟨d.id, d.name, d.phone, d.email⟩

/-! ### FinanceRecord (`class FinanceRecord`) -/

/-- A `FinanceRecord` object.  Amounts are Python floats; in every claim
they are exact small values, so we embed them as integers. -/
structure FinanceRecord where
  id : Int
  amount : Int
  category : String
  date : String
  description : String
  deriving DecidableEq, Repr

/-- The flat field map produced by `FinanceRecord.to_dict`. -/
structure FinanceDict where
  id : Int
  amount : Int
  category : String
  date : String
  description : String
  deriving DecidableEq, Repr

/-- `FinanceRecord.to_dict`. -/
def FinanceRecord.toDict (r : FinanceRecord) : FinanceDict :=
  ⟨r.id, r.amount, r.category, r.date, r.description⟩

/-- `FinanceRecord.from_dict`: verbatim copy. -/
def FinanceRecord.fromDict (d : FinanceDict) : FinanceRecord :=
  ⟨d.id, d.amount, d.category, d.date, d.description⟩

/-! ### Backing files: save and load -/

/-- State of a JSON backing file: absent, present but not valid JSON, or a
well-formed array of field maps. -/
inductive FileState (α : Type) where
  | missing
  | malformed
  | wellFormed (data : List α)
  deriving DecidableEq, Repr

/-- Error raised by `json.load` on malformed content. -/
inductive JsonErr where
  | decodeError
  deriving DecidableEq, Repr

/-- `NoteManager.save_notes`: serialize the whole list, in order. -/
def saveNotes (notes : List Note) : List NoteDict :=
  notes.map Note.toDict

/-- `NoteManager.load_notes`: missing file gives `[]`; a
`json.JSONDecodeError` is caught, a diagnostic is printed, and `[]` is
returned; otherwise every element is deserialized in file order. -/
def loadNotes (now : String) : FileState NoteDict → List Note
  | .missing => []
  | .malformed => []
  | .wellFormed data => data.map (Note.fromDict now)

/-- `TaskManager.save_tasks`. -/
def saveTasks (tasks : List TaskRec) : List TaskDict :=
  tasks.map TaskRec.toDict

/-- `TaskManager.load_tasks`: same recovery structure as the notes. -/
def loadTasks : FileState TaskDict → List TaskRec
  | .missing => []
  | .malformed => []
  | .wellFormed data => data.map TaskRec.fromDict

/-- `ContactManager.save_contacts`. -/
def saveContacts (contacts : List Contact) : List ContactDict :=
  contacts.map Contact.toDict

/-- `ContactManager.load_contacts`: same recovery structure as the notes. -/
def loadContacts : FileState ContactDict → List Contact
  | .missing => []
  | .malformed => []
  | .wellFormed data => data.map Contact.fromDict

/-- `FinanceManager.save_records`. -/
def saveRecords (records : List FinanceRecord) : List FinanceDict :=
  records.map FinanceRecord.toDict

/-- `FinanceManager.load_records`: unlike the other three managers there is
no `try/except`, so a `json.JSONDecodeError` on malformed content
propagates out of the constructor. -/
def loadRecords : FileState FinanceDict → Except JsonErr (List FinanceRecord)
  | .missing => .ok []
  | .malformed => .error .decodeError
  | .wellFormed data => .ok (data.map FinanceRecord.fromDict)

/-! ### Round-trip lemmas -/

/-- Deserializing a serialized note restores it, provided its stored
timestamp is truthy (which `Note.__init__` guarantees for every live
`Note` object, given a nonempty clock string). -/
theorem note_roundtrip_dict (now : String) (n : Note)
    (h : n.timestamp ≠ "") : Note.fromDict now n.toDict = n := by
  have hne : n.timestamp.isEmpty = false := by
    cases hh : n.timestamp.isEmpty
    · rfl
    · exact absurd ((String.isEmpty_iff n.timestamp).mp hh) h
  simp [Note.fromDict, Note.toDict, Note.init, pyOrOptStr, pyOrStr, hne]

/-- Every `Note` built by the constructor has a nonempty timestamp when the
clock string is nonempty: this is the class invariant used above. -/
theorem Note.init_timestamp_ne (now : String) (hnow : now ≠ "")
    (id : Int) (title content : String) (ts : Option String) :
    (Note.init now id title content ts).timestamp ≠ "" := by
  show pyOrOptStr ts now ≠ ""
  unfold pyOrOptStr pyOrStr
  split
  · exact hnow
  · rename_i hne
    intro hcon
    rw [hcon] at hne
    exact hne rfl

theorem task_roundtrip_dict (t : TaskRec) : TaskRec.fromDict t.toDict = t := rfl

theorem contact_roundtrip_dict (c : Contact) :
    Contact.fromDict c.toDict = c := rfl

theorem finance_roundtrip_dict (r : FinanceRecord) :
    FinanceRecord.fromDict r.toDict = r := rfl

/-- C1: `save()` then a fresh load on the same backing file reproduces the
record list, for each of the four managers: same length, same order, every
field equal.  For notes the statement carries the `Note` class invariant
that live timestamps are truthy (enforced by `Note.__init__`, see
`Note.init_timestamp_ne`); the other three entities round-trip
unconditionally. -/
theorem c1_save_load_roundtrip (now : String)
    (notes : List Note) (hts : ∀ n ∈ notes, n.timestamp ≠ "")
    (tasks : List TaskRec) (contacts : List Contact)
    (records : List FinanceRecord) :
    loadNotes now (.wellFormed (saveNotes notes)) = notes ∧
    loadTasks (.wellFormed (saveTasks tasks)) = tasks ∧
    loadContacts (.wellFormed (saveContacts contacts)) = contacts ∧
    loadRecords (.wellFormed (saveRecords records)) = .ok records := by
  refine ⟨?_, ?_, ?_, ?_⟩
  · show (notes.map Note.toDict).map (Note.fromDict now) = notes
    rw [List.map_map]
    apply List.map_congr_left ?_ |>.trans (List.map_id notes)
    intro n hn
    exact note_roundtrip_dict now n (hts n hn)
  · show (tasks.map TaskRec.toDict).map TaskRec.fromDict = tasks
    rw [List.map_map]
    exact List.map_id tasks
  · show (contacts.map Contact.toDict).map Contact.fromDict = contacts
    rw [List.map_map]
    exact List.map_id contacts
  · show Except.ok ((records.map FinanceRecord.toDict).map FinanceRecord.fromDict) = .ok records
    rw [List.map_map]
    exact congrArg Except.ok (List.map_id records)

/-- Witness for C1 at a concrete store of each kind. -/
theorem c1_save_load_roundtrip_witness :
    loadNotes "09-10-2024 10:00:00"
      (.wellFormed (saveNotes [⟨1, "a", "b", "01-01-2024 09:00:00"⟩])) =
      [⟨1, "a", "b", "01-01-2024 09:00:00"⟩] ∧
    loadTasks (.wellFormed (saveTasks [⟨1, "t", "d", false, "Средний", none⟩])) =
      [⟨1, "t", "d", false, "Средний", none⟩] ∧
    loadContacts (.wellFormed (saveContacts [⟨1, "n", none, some "e@x.ru"⟩])) =
      [⟨1, "n", none, some "e@x.ru"⟩] ∧
    loadRecords (.wellFormed (saveRecords [⟨1, -5, "Еда", "01-01-2024", "x"⟩])) =
      .ok [⟨1, -5, "Еда", "01-01-2024", "x"⟩] := by
  exact c1_save_load_roundtrip "09-10-2024 10:00:00"
    [⟨1, "a", "b", "01-01-2024 09:00:00"⟩] (by decide)
    [⟨1, "t", "d", false, "Средний", none⟩]
    [⟨1, "n", none, some "e@x.ru"⟩]
    [⟨1, -5, "Еда", "01-01-2024", "x"⟩]

/-- C5 counterexample: the claim asserts all four managers return an empty
list on a malformed backing file, but `FinanceManager.load_records` has no
`try/except` and the `json.JSONDecodeError` propagates instead. -/
theorem c5_malformed_counterexample :
    loadRecords (FileState.malformed) = Except.error JsonErr.decodeError := rfl

/-- C5 amended: Note, Task and Contact managers reset to the empty
collection on a malformed backing file (after a diagnostic); the Finance
manager instead propagates the JSON decode error out of its constructor. -/
theorem c5_malformed_load_amended (now : String) :
    loadNotes now .malformed = [] ∧
    loadTasks .malformed = [] ∧
    loadContacts .malformed = [] ∧
    loadRecords .malformed = Except.error JsonErr.decodeError :=
  ⟨rfl, rfl, rfl, rfl⟩

/-! ### Deletion (`delete_note` / `delete_task` / `delete_contact` /
`delete_record`)

Each delete returns the new list together with a flag recording whether
`save` was called by the operation. -/

/-- Argument of a delete: the sentinel string `'ALL'` or an integer id. -/
inductive DelArg where
  | all
  | byId (i : Int)
  deriving DecidableEq, Repr

/-- `NoteManager.delete_note`: `'ALL'` clears and saves; a present id is
removed by filter-rebuild and saved; an absent id only prints a message —
the list is unchanged and `save_notes` is NOT called. -/
def deleteNote : DelArg → List Note → List Note × Bool
  | .all, _ => ([], true)
  | .byId i, notes =>
    if notes.any (fun n => n.id == i) then
      (notes.filter (fun n => n.id != i), true)
    else
      (notes, false)

/-- `TaskManager.delete_task`: clears on `'ALL'`, otherwise
filter-rebuilds, and saves unconditionally. -/
def deleteTask : DelArg → List TaskRec → List TaskRec × Bool
  | .all, _ => ([], true)
  | .byId i, tasks => (tasks.filter (fun t => t.id != i), true)

/-- `ContactManager.delete_contact`: same shape as `delete_task`. -/
def deleteContact : DelArg → List Contact → List Contact × Bool
  | .all, _ => ([], true)
  | .byId i, contacts => (contacts.filter (fun c => c.id != i), true)

/-- `FinanceManager.delete_record`: same shape as `delete_task`. -/
def deleteRecord : DelArg → List FinanceRecord → List FinanceRecord × Bool
  | .all, _ => ([], true)
  | .byId i, records => (records.filter (fun r => r.id != i), true)

/-- A sample note used in concrete witnesses. -/
def sampleNote : Note := ⟨1, "t", "c", "01-01-2024 09:00:00"⟩

/-- Helper: filtering out an id that is absent from a note list leaves the
list unchanged. -/
theorem filter_ne_of_not_mem_note (i : Int) (l : List Note)
    (h : i ∉ l.map Note.id) : l.filter (fun n => n.id != i) = l := by
  induction l with
  | nil => rfl
  | cons a t ih =>
    rw [List.map_cons, List.mem_cons] at h
    push_neg at h
    have ha : (a.id != i) = true := by
      simp only [bne_iff_ne, ne_eq]
      exact fun hc => h.1 hc.symm
    simp [List.filter_cons, ha, ih h.2]

/-- Analogue of `filter_ne_of_not_mem_note` for tasks. -/
theorem filter_ne_of_not_mem_task (i : Int) (l : List TaskRec)
    (h : i ∉ l.map TaskRec.id) : l.filter (fun t => t.id != i) = l := by
  induction l with
  | nil => rfl
  | cons a t ih =>
    rw [List.map_cons, List.mem_cons] at h
    push_neg at h
    have ha : (a.id != i) = true := by
      simp only [bne_iff_ne, ne_eq]
      exact fun hc => h.1 hc.symm
    simp [List.filter_cons, ha, ih h.2]

/-- C6 counterexample: the claim says the backing file is rewritten in
every case, including the absent-id case; but `NoteManager.delete_note`
with an absent id does not call `save_notes` (save flag `false`). -/
theorem c6_delete_counterexample :
    deleteNote (DelArg.byId 2) [sampleNote] = ([sampleNote], false) := by
  decide

/-- C6 amended: `'ALL'` empties every collection and saves; a specific id
is removed by filter-rebuild; deleting an absent id is a non-throwing
no-op on the collection.  Task, Contact and Finance deletes always
re-save, but `NoteManager.delete_note` re-saves only when the sentinel is
used or the id was present — on an absent id the notes file is not
rewritten. -/
theorem c6_delete_semantics (i : Int) (l : List Note) (lt : List TaskRec)
    (lc : List Contact) (lf : List FinanceRecord) :
    deleteNote .all l = ([], true) ∧
    deleteTask .all lt = ([], true) ∧
    deleteContact .all lc = ([], true) ∧
    deleteRecord .all lf = ([], true) ∧
    (i ∈ l.map Note.id →
      deleteNote (.byId i) l = (l.filter (fun n => n.id != i), true)) ∧
    (i ∉ l.map Note.id → deleteNote (.byId i) l = (l, false)) ∧
    deleteTask (.byId i) lt = (lt.filter (fun t => t.id != i), true) ∧
    deleteContact (.byId i) lc = (lc.filter (fun c => c.id != i), true) ∧
    deleteRecord (.byId i) lf = (lf.filter (fun r => r.id != i), true) ∧
    (i ∉ lt.map TaskRec.id → deleteTask (.byId i) lt = (lt, true)) := by
  refine ⟨rfl, rfl, rfl, rfl, ?_, ?_, rfl, rfl, rfl, ?_⟩
  · intro hmem
    have hany : (l.any (fun n => n.id == i)) = true := by
      rw [List.any_eq_true]
      rcases List.mem_map.mp hmem with ⟨n, hn, hid⟩
      exact ⟨n, hn, by simp [hid]⟩
    simp [deleteNote, hany]
  · intro habs
    have hany : (l.any (fun n => n.id == i)) = false := by
      rw [List.any_eq_false]
      intro n hn
      simp only [beq_iff_eq]
      intro hc
      exact habs (List.mem_map.mpr ⟨n, hn, hc⟩)
    simp [deleteNote, hany]
  · intro habs
    rw [deleteTask, filter_ne_of_not_mem_task i lt habs]

/-- Witness for C6 at concrete inputs: present-id delete saves, absent-id
delete on notes does not. -/
theorem c6_delete_semantics_witness :
    deleteNote (DelArg.byId 1) [sampleNote] = ([], true) ∧
    deleteNote (DelArg.byId 2) [sampleNote] = ([sampleNote], false) ∧
    deleteTask (DelArg.byId 2) [] = ([], true) := by
  have h := c6_delete_semantics 1 [sampleNote] [] [] []
  have h2 := c6_delete_semantics 2 [sampleNote] [] [] []
  refine ⟨?_, h2.2.2.2.2.2.1 (by decide), h2.2.2.2.2.2.2.2.2.2 (by decide)⟩
  have := h.2.2.2.2.1 (by decide)
  simpa using this

/-! ### Session id assignment (`create_note` and friends)

All four `add` operations compute the new id as
`max([r.id for r in records], default=0) + 1` and append.  We model a
session as a list of add/delete operations on one note store and record
the ids assigned by the adds, in order. -/

/-- Next id, exactly as computed by `create_note` / `add_task` /
`add_contact` / `add_record`. -/
def nextNoteId (l : List Note) : Int := pyMaxD0 (l.map Note.id) + 1

/-- `NoteManager.create_note`: build the note with a fresh timestamp,
append it, save, and return it (we return the assigned id). -/
def createNote (now title content : String) (l : List Note) :
    List Note × Int :=
  (l ++ [Note.init now (nextNoteId l) title content none], nextNoteId l)

/-- One session operation on the note store. -/
inductive NoteOp where
  | add (title content : String)
  | del (arg : DelArg)
  deriving DecidableEq, Repr

/-- Whether a session operation is an add. -/
def NoteOp.isAdd : NoteOp → Bool
  | .add _ _ => true
  | .del _ => false

/-- Run a session: return the final store and the ids assigned by the
adds, in order of assignment. -/
def runNoteOps (now : String) : List NoteOp → List Note → List Note × List Int
  | [], l => (l, [])
  | .add t c :: ops, l =>
    let step := createNote now t c l
    let rest := runNoteOps now ops step.1
    (rest.1, step.2 :: rest.2)
  | .del a :: ops, l => runNoteOps now ops (deleteNote a l).1

/-- The initial element is below any left fold of `max`. -/
theorem le_foldl_max_init (ys : List Int) (a : Int) : a ≤ ys.foldl max a := by
  induction ys generalizing a with
  | nil => exact le_refl a
  | cons b t ih => exact le_trans (le_max_left a b) (ih (max a b))

/-- Every member is below a left fold of `max`. -/
theorem mem_le_foldl_max (ys : List Int) (a x : Int) (hx : x ∈ ys) :
    x ≤ ys.foldl max a := by
  induction ys generalizing a with
  | nil => cases hx
  | cons b t ih =>
    rcases List.mem_cons.mp hx with h | h
    · subst h
      exact le_trans (le_max_right a x) (le_foldl_max_init t (max a x))
    · exact ih (max a b) h

/-- Every member of a list is at most its Python max. -/
theorem mem_le_pyMaxD0 (xs : List Int) (x : Int) (hx : x ∈ xs) :
    x ≤ pyMaxD0 xs := by
  cases xs with
  | nil => cases hx
  | cons y ys =>
    rcases List.mem_cons.mp hx with h | h
    · subst h; exact le_foldl_max_init ys x
    · exact mem_le_foldl_max ys y x h

/-- Python max of a list with one element appended. -/
theorem pyMaxD0_append_singleton (xs : List Int) (y : Int) :
    pyMaxD0 (xs ++ [y]) = if xs.isEmpty then y else max (pyMaxD0 xs) y := by
  cases xs with
  | nil => rfl
  | cons x t =>
    show (t ++ [y]).foldl max x = max (t.foldl max x) y
    rw [List.foldl_append]
    rfl

/-- Appending the freshly assigned note bumps the next id by one. -/
theorem nextNoteId_snoc_fresh (l : List Note) (n : Note)
    (h : n.id = nextNoteId l) :
    nextNoteId (l ++ [n]) = nextNoteId l + 1 := by
  unfold nextNoteId at *
  rw [List.map_append, List.map_cons, List.map_nil, pyMaxD0_append_singleton]
  cases l with
  | nil => simp [pyMaxD0] at h ⊢; omega
  | cons a t =>
    have hni : (((a :: t).map Note.id).isEmpty) = false := rfl
    rw [hni]
    simp only [Bool.false_eq_true, if_false]
    have : pyMaxD0 ((a :: t).map Note.id) ≤ n.id := by omega
    rw [max_eq_right this, h]

/-- In an add-only session every assigned id is at least `nextNoteId` of
the starting store, and the assigned ids strictly increase. -/
theorem runNoteOps_addOnly (now : String) (ops : List NoteOp)
    (h : ∀ op ∈ ops, op.isAdd = true) :
    ∀ l : List Note,
      (∀ i ∈ (runNoteOps now ops l).2, nextNoteId l ≤ i) ∧
      ((runNoteOps now ops l).2).Pairwise (· < ·) := by
  induction ops with
  | nil =>
    intro l
    exact ⟨fun i hi => absurd hi (List.not_mem_nil i), List.Pairwise.nil⟩
  | cons op rest ih =>
    intro l
    cases op with
    | del a => exact absurd (h _ (List.mem_cons_self _ _)) (by simp [NoteOp.isAdd])
    | add t c =>
      have hrest := ih (fun o ho => h o (List.mem_cons_of_mem _ ho))
      have hids : (runNoteOps now (NoteOp.add t c :: rest) l).2 =
          nextNoteId l ::
            (runNoteOps now rest (createNote now t c l).1).2 := rfl
      have hnext : nextNoteId (createNote now t c l).1 = nextNoteId l + 1 :=
        nextNoteId_snoc_fresh l _ rfl
      obtain ⟨hlb, hpw⟩ := hrest (createNote now t c l).1
      rw [hnext] at hlb
      constructor
      · intro i hi
        rw [hids, List.mem_cons] at hi
        rcases hi with hi | hi
        · exact le_of_eq hi.symm
        · exact le_trans (by omega) (hlb i hi)
      · rw [hids]
        exact List.Pairwise.cons (fun i hi => by have := hlb i hi; omega) hpw

/-- C4 counterexample: starting from an empty store, `add; add;
delete(2); add` assigns the ids `1, 2, 2` — after the delete of the
maximal id, the third add reuses id 2, so assigned ids do repeat. -/
theorem c4_id_reuse_counterexample :
    (runNoteOps "T" [NoteOp.add "a" "x", NoteOp.add "b" "y",
        NoteOp.del (DelArg.byId 2), NoteOp.add "c" "z"] []).2 = [1, 2, 2] ∧
    ¬ ((runNoteOps "T" [NoteOp.add "a" "x", NoteOp.add "b" "y",
        NoteOp.del (DelArg.byId 2), NoteOp.add "c" "z"] []).2).Nodup := by
  decide

/-- C4 amended: every id assigned by an add is strictly greater than every
id present in the store at that moment; and in a session whose operations
are all adds (no intervening deletes) the assigned ids strictly increase
and never repeat.  Deleting the current maximal id, however, lets the next
add reuse it (see the counterexample). -/
theorem c4_ids_increase_amended :
    (∀ (now t c : String) (l : List Note), ∀ n ∈ l,
        n.id < (createNote now t c l).2) ∧
    (∀ (now : String) (ops : List NoteOp), (∀ op ∈ ops, op.isAdd = true) →
        ∀ l : List Note, ((runNoteOps now ops l).2).Pairwise (· < ·)) := by
  constructor
  · intro now t c l n hn
    have : n.id ≤ pyMaxD0 (l.map Note.id) :=
      mem_le_pyMaxD0 _ _ (List.mem_map.mpr ⟨n, hn, rfl⟩)
    show n.id < nextNoteId l
    unfold nextNoteId
    omega
  · intro now ops h l
    exact (runNoteOps_addOnly now ops h l).2

/-- Witness for C4 (amended) at concrete inputs. -/
theorem c4_ids_increase_amended_witness :
    sampleNote.id < (createNote "T" "a" "b" [sampleNote]).2 ∧
    ((runNoteOps "T" [NoteOp.add "a" "x", NoteOp.add "b" "y"] []).2).Pairwise
      (· < ·) :=
  ⟨c4_ids_increase_amended.1 "T" "a" "b" [sampleNote] sampleNote
      (List.mem_singleton.mpr rfl),
    c4_ids_increase_amended.2 "T" [NoteOp.add "a" "x", NoteOp.add "b" "y"]
      (by decide) []⟩

/-! ### Task filtering (`TaskManager.list_tasks`)

The three filter arguments are guarded by Python truthiness (`if
filter_status:` etc.), so a falsy value — `False`, the empty list, the
empty string, `None` — skips that filter entirely. -/

/-- Truthiness of an optional Python boolean (`None` and `False` falsy). -/
def pyTruthyOptBool : Option Bool → Bool
  | some true => true
  | _ => false

/-- Truthiness of an optional Python list (`None` and `[]` falsy). -/
def pyTruthyOptList : Option (List String) → Bool
  | some (_ :: _) => true
  | _ => false

/-- Python string comparison `a <= b`: code-point lexicographic order on
the character sequences, a proper initial segment being smaller. -/
def lexLe : List Char → List Char → Bool
  | [], _ => true
  | _ :: _, [] => false
  | a :: as, b :: bs => if a = b then lexLe as bs else decide (a < b)

/-- Python `a <= b` on strings. -/
def pyStrLe (a b : String) : Bool := lexLe a.toList b.toList

/-- `TaskManager.list_tasks`: three successive truthiness-guarded filter
passes over the task list. -/
def listTasks (fs : Option Bool) (fp : Option (List String))
    (fd : Option String) (tasks : List TaskRec) : List TaskRec :=
  let t1 := if pyTruthyOptBool fs then
      tasks.filter (fun t => t.done == fs.getD false) else tasks
  let t2 := if pyTruthyOptList fp then
      t1.filter (fun t => (fp.getD []).contains t.priority) else t1
  if pyTruthyOptStr fd then
    t2.filter (fun t => pyTruthyOptStr t.dueDate &&
      pyStrLe (t.dueDate.getD "") (fd.getD ""))
  else t2

/-- A done task used in the C2 counterexample. -/
def c2DoneTask : TaskRec := ⟨1, "a", "d", true, "Средний", none⟩

/-- C2 counterexample: supplying the status filter `False` does not
perform an exact boolean match — Python truthiness skips the filter, so a
done task is returned even though `done ≠ False`. -/
theorem c2_status_filter_counterexample :
    listTasks (some false) none none [c2DoneTask] = [c2DoneTask] ∧
    List.filter (fun t => t.done == false) [c2DoneTask] = [] := by
  constructor <;> rfl

/-- The single-pass filter predicate described by the claim, with each
filter guarded by the truthiness of its argument. -/
def listTasksPred (fs : Option Bool) (fp : Option (List String))
    (fd : Option String) (t : TaskRec) : Bool :=
  (if pyTruthyOptBool fs then t.done == fs.getD false else true) &&
  ((if pyTruthyOptList fp then (fp.getD []).contains t.priority else true) &&
   (if pyTruthyOptStr fd then pyTruthyOptStr t.dueDate &&
       pyStrLe (t.dueDate.getD "") (fd.getD "") else true))

/-- A truthiness-guarded boolean conjunct holds iff the guard implies the
body. -/
theorem guard_eq_true_iff (g x : Bool) :
    (if g = true then x else true) = true ↔ (g = true → x = true) := by
  cases g <;> simp

/-- C2 amended: the three filters compose with logical AND in a single
pass and preserve the list order; with no filters the full list is
returned.  However each filter applies only when its argument is truthy:
a status of `False`, an empty priority list and an empty due-date string
are all treated as "no filter" (Python truthiness), so the status filter
can only ever select done tasks.  When it applies, the due-date filter
keeps exactly the tasks whose due date is truthy (set and nonempty) and
lexicographically at most the filter date. -/
theorem c2_list_tasks_amended :
    (∀ tasks, listTasks none none none tasks = tasks) ∧
    (∀ fs fp fd tasks,
      listTasks fs fp fd tasks = tasks.filter (listTasksPred fs fp fd)) ∧
    (∀ fs fp fd tasks (t : TaskRec),
      t ∈ listTasks fs fp fd tasks ↔
        t ∈ tasks ∧
        (pyTruthyOptBool fs = true → t.done = fs.getD false) ∧
        (pyTruthyOptList fp = true → t.priority ∈ fp.getD []) ∧
        (pyTruthyOptStr fd = true → pyTruthyOptStr t.dueDate = true ∧
          pyStrLe (t.dueDate.getD "") (fd.getD "") = true)) := by
  have hfuse : ∀ fs fp fd tasks,
      listTasks fs fp fd tasks = tasks.filter (listTasksPred fs fp fd) := by
    intro fs fp fd tasks
    unfold listTasks listTasksPred
    cases hs : pyTruthyOptBool fs <;>
      cases hp : pyTruthyOptList fp <;>
        cases hd : pyTruthyOptStr fd <;>
          simp [List.filter_filter, Bool.and_comm, Bool.and_assoc,
            Bool.and_left_comm]
  refine ⟨?_, hfuse, ?_⟩
  · intro tasks
    rw [hfuse]
    exact List.filter_eq_self.mpr (fun a _ => rfl)
  intro fs fp fd tasks t
  rw [hfuse, List.mem_filter]
  unfold listTasksPred
  rw [Bool.and_eq_true, Bool.and_eq_true,
    guard_eq_true_iff, guard_eq_true_iff, guard_eq_true_iff]
  constructor
  · rintro ⟨hmem, h1, h2, h3⟩
    refine ⟨hmem, fun hg => by simpa using h1 hg,
      fun hg => by simpa [List.contains, List.elem_iff] using h2 hg,
      fun hg => by simpa using h3 hg⟩
  · rintro ⟨hmem, h1, h2, h3⟩
    refine ⟨hmem, fun hg => by simpa using h1 hg,
      fun hg => by simpa [List.contains, List.elem_iff] using h2 hg,
      fun hg => by simpa using h3 hg⟩

/-! ### Finance reporting (`FinanceManager.generate_report`)

Dates are `DD-MM-YYYY` strings; the report parses both bounds and each
record date with `datetime.strptime` and compares chronologically
(inclusive).  We model a parsed date as `(year, month, day)` so that the
`datetime` order is the lexicographic order on the triple. -/

/-- Split a character list on `'-'` (model of `"…".split`-style parsing of
the fixed `%d-%m-%Y` format). -/
def splitDash (acc : List Char) : List Char → List (List Char)
  | [] => [acc.reverse]
  | c :: t => if c = '-' then acc.reverse :: splitDash [] t
              else splitDash (c :: acc) t

/-- Numeric value of a digit string. -/
def digitsVal (cs : List Char) : Nat :=
  cs.foldl (fun a c => a * 10 + (c.toNat - 48)) 0

/-- Parse a nonempty all-digit group. -/
def digitGroup (cs : List Char) : Option Nat :=
  if cs ≠ [] ∧ cs.all Char.isDigit then some (digitsVal cs) else none

/-- Parse `DD-MM-YYYY` into `(year, month, day)`.  `strptime` additionally
range-checks the fields; every date in the claims is valid, so the model
only checks the shape. -/
def parseDate (s : String) : Option (Nat × Nat × Nat) :=
  match splitDash [] s.toList with
  | [d, m, y] =>
    match digitGroup d, digitGroup m, digitGroup y with
    | some dd, some mm, some yy => some (yy, mm, dd)
    | _, _, _ => none
  | _ => none

/-- Chronological `≤` on parsed dates: lexicographic on
`(year, month, day)`. -/
def dateLe (a b : Nat × Nat × Nat) : Bool :=
  decide (a.1 < b.1) ||
    (a.1 == b.1 && (decide (a.2.1 < b.2.1) ||
      (a.2.1 == b.2.1 && decide (a.2.2 ≤ b.2.2))))

/-- Membership of a record date in the inclusive report range. -/
def dateInRange (s e : Nat × Nat × Nat) (dateStr : String) : Bool :=
  match parseDate dateStr with
  | some d => dateLe s d && dateLe d e
  | none => false

/-- `FinanceManager.generate_report`: select records in the inclusive
chronological range, and when the selection is nonempty report
`(selected, income, expenses, balance)` where — exactly as printed by the
code — `costs` is the sum of the negative amounts, `profit` is the sum of
all selected amounts, income is `profit + costs`, expenses is `costs` and
balance is `profit`.  An empty selection produces no report (`none`). -/
def generateReport (startS endS : String) (records : List FinanceRecord) :
    Option (List FinanceRecord × Int × Int × Int) :=
  match parseDate startS, parseDate endS with
  | some s, some e =>
    let current := records.filter (fun r => dateInRange s e r.date)
    if current.isEmpty then none
    else
      let costs := ((current.filter (fun r => r.amount < 0)).map
        FinanceRecord.amount).sum
      let profit := (current.map FinanceRecord.amount).sum
      some (current, profit + costs, costs, profit)
  | _, _ => none

/-- First record of the C3 scenario: +1000 on 01-01-2024. -/
def c3r1 : FinanceRecord := ⟨1, 1000, "Зарплата", "01-01-2024", "a"⟩

/-- Second record of the C3 scenario: -400 on 15-01-2024. -/
def c3r2 : FinanceRecord := ⟨2, -400, "Еда", "15-01-2024", "b"⟩

/-- Third record of the C3 scenario: +200 on 01-02-2024. -/
def c3r3 : FinanceRecord := ⟨3, 200, "Прочее", "01-02-2024", "c"⟩

/-- C3 at the claim's input: the range selects exactly the first two
records, expenses are -400 and the balance is 600 as claimed — but the
line labelled total income prints `profit + costs = 600 + (-400) = 200`,
not the claimed (and arithmetically correct) 1000; the code's `+` should
be `-` (income = profit - costs = sum of the positive amounts). -/
theorem c3_report_income_bug :
    generateReport "01-01-2024" "31-01-2024" [c3r1, c3r2, c3r3] =
      some ([c3r1, c3r2], 200, -400, 600) := by
  decide

/-! ### Partial updates (`Note.update` / `Task.update` / `Contact.update`
and the managers' edit methods)

Each `update` assigns a field only when the supplied value is truthy
(`if title: self.title = title`), and `Note.update` unconditionally
refreshes the timestamp.  The managers find the first record with the
given id, mutate it in place, and save; an absent id leaves the list
untouched. -/

/-- `Note.update`. -/
def Note.update (now : String) (t c : Option String) (n : Note) : Note :=
  { id := n.id
    title := if pyTruthyOptStr t then t.getD n.title else n.title
    content := if pyTruthyOptStr c then c.getD n.content else n.content
    timestamp := now }

/-- `NoteManager.edit_note`: update the first note with the given id. -/
def editNote (now : String) (nid : Int) (t c : Option String) :
    List Note → List Note
  | [] => []
  | n :: rest =>
    if n.id == nid then Note.update now t c n :: rest
    else n :: editNote now nid t c rest

/-- `Task.update`. -/
def TaskRec.update (t d p du : Option String) (task : TaskRec) : TaskRec :=
  { task with
    title := if pyTruthyOptStr t then t.getD task.title else task.title
    description := if pyTruthyOptStr d then d.getD task.description
      else task.description
    priority := if pyTruthyOptStr p then p.getD task.priority
      else task.priority
    dueDate := if pyTruthyOptStr du then du else task.dueDate }

/-- `TaskManager.edit_task`: update the first task with the given id. -/
def editTask (tid : Int) (t d p du : Option String) :
    List TaskRec → List TaskRec
  | [] => []
  | task :: rest =>
    if task.id == tid then TaskRec.update t d p du task :: rest
    else task :: editTask tid t d p du rest

/-- `Contact.update`. -/
def Contact.update (na ph em : Option String) (c : Contact) : Contact :=
  { c with
    name := if pyTruthyOptStr na then na.getD c.name else c.name
    phone := if pyTruthyOptStr ph then ph else c.phone
    email := if pyTruthyOptStr em then em else c.email }

/-- `ContactManager.edit_contact`: update the first matching contact. -/
def editContact (cid : Int) (na ph em : Option String) :
    List Contact → List Contact
  | [] => []
  | c :: rest =>
    if c.id == cid then Contact.update na ph em c :: rest
    else c :: editContact cid na ph em rest

/-- An all-falsy `Note.update` only refreshes the timestamp. -/
theorem note_update_allEmpty (now : String) (t c : Option String)
    (ht : pyTruthyOptStr t = false) (hc : pyTruthyOptStr c = false)
    (n : Note) : Note.update now t c n = { n with timestamp := now } := by
  simp [Note.update, ht, hc]

/-- An all-falsy `Task.update` is the identity. -/
theorem task_update_allEmpty (t d p du : Option String)
    (ht : pyTruthyOptStr t = false) (hd : pyTruthyOptStr d = false)
    (hp : pyTruthyOptStr p = false) (hdu : pyTruthyOptStr du = false)
    (task : TaskRec) : TaskRec.update t d p du task = task := by
  simp [TaskRec.update, ht, hd, hp, hdu]

/-- An all-falsy `Contact.update` is the identity. -/
theorem contact_update_allEmpty (na ph em : Option String)
    (hna : pyTruthyOptStr na = false) (hph : pyTruthyOptStr ph = false)
    (hem : pyTruthyOptStr em = false)
    (c : Contact) : Contact.update na ph em c = c := by
  simp [Contact.update, hna, hph, hem]

/-- C8: editing with all fields empty or absent leaves every field of the
target record unchanged except that the Note (the timestamp-bearing
entity) still gets its timestamp advanced to the current time; every
other record in the collection — before or after the target — is left
untouched, and an edit of an absent id changes nothing. -/
theorem c8_empty_update_frame (now : String) (t c p du na ph em : Option String)
    (ht : pyTruthyOptStr t = false) (hc : pyTruthyOptStr c = false)
    (hp : pyTruthyOptStr p = false) (hdu : pyTruthyOptStr du = false)
    (hna : pyTruthyOptStr na = false) (hph : pyTruthyOptStr ph = false)
    (hem : pyTruthyOptStr em = false) :
    (∀ (pre post : List Note) (n : Note) (nid : Int), n.id = nid →
       nid ∉ pre.map Note.id →
       editNote now nid t c (pre ++ n :: post) =
         pre ++ ({ n with timestamp := now }) :: post) ∧
    (∀ (notes : List Note) (nid : Int), nid ∉ notes.map Note.id →
       editNote now nid t c notes = notes) ∧
    (∀ (tasks : List TaskRec) (tid : Int),
       editTask tid t c p du tasks = tasks) ∧
    (∀ (contacts : List Contact) (cid : Int),
       editContact cid na ph em contacts = contacts) := by
  refine ⟨?_, ?_, ?_, ?_⟩
  · intro pre post n nid hn hpre
    induction pre with
    | nil =>
      have hbeq : (n.id == nid) = true := beq_iff_eq.mpr hn
      simp only [List.nil_append, editNote, hbeq, if_true]
      rw [note_update_allEmpty now t c ht hc n]
    | cons a rest ih =>
      rw [List.map_cons, List.mem_cons] at hpre
      push_neg at hpre
      have hbeq : (a.id == nid) = false := by
        simp only [beq_eq_false_iff_ne, ne_eq]
        exact fun hcon => hpre.1 hcon.symm
      simp only [List.cons_append, editNote, hbeq, Bool.false_eq_true,
        if_false, List.append_eq]
      rw [ih hpre.2]
  · intro notes nid habs
    induction notes with
    | nil => rfl
    | cons a rest ih =>
      rw [List.map_cons, List.mem_cons] at habs
      push_neg at habs
      have hbeq : (a.id == nid) = false := by
        simp only [beq_eq_false_iff_ne, ne_eq]
        exact fun hcon => habs.1 hcon.symm
      simp only [editNote, hbeq, Bool.false_eq_true, if_false]
      rw [ih habs.2]
  · intro tasks tid
    induction tasks with
    | nil => rfl
    | cons a rest ih =>
      simp only [editTask]
      rw [task_update_allEmpty t c p du ht hc hp hdu a, ih]
      split <;> rfl
  · intro contacts cid
    induction contacts with
    | nil => rfl
    | cons a rest ih =>
      simp only [editContact]
      rw [contact_update_allEmpty na ph em hna hph hem a, ih]
      split <;> rfl

/-- Witness for C8 at concrete inputs: the matched note keeps id, title
and content but gets the new timestamp; an all-empty task edit is the
identity. -/
theorem c8_empty_update_frame_witness :
    editNote "02-02-2024 12:00:00" 1 none (some "") [sampleNote] =
      [{ sampleNote with timestamp := "02-02-2024 12:00:00" }] ∧
    editTask 1 none none none none [c2DoneTask] = [c2DoneTask] := by
  have h := c8_empty_update_frame "02-02-2024 12:00:00" none (some "") none
    none none none none rfl rfl rfl rfl rfl rfl rfl
  exact ⟨h.1 [] [] sampleNote 1 rfl (by simp), h.2.2.1 [c2DoneTask] 1⟩

/-! ### Contact search (`ContactManager.search_contacts`)

The code lowercases the query once and the name, but compares the query
against the phone string as stored — the phone side of the match is not
case-insensitive. -/

/-- Lowercase a string characterwise (Python `str.lower` on the
characters used here). -/
def strLower (s : String) : String := String.mk (s.toList.map Char.toLower)

/-- Whether `n` is an initial segment of `h` (model of Python substring
matching, auxiliary). -/
def startsWithL (n : List Char) : List Char → Bool :=
  fun h =>
    match n, h with
    | [], _ => true
    | _ :: _, [] => false
    | a :: as, b :: bs => a == b && startsWithL as bs

/-- Python `needle in hay` on character lists: some tail of `hay` starts
with `needle`. -/
def subStrL (n : List Char) : List Char → Bool
  | [] => n.isEmpty
  | b :: bs => startsWithL n (b :: bs) || subStrL n bs

/-- Python `needle in hay` on strings. -/
def pyInStr (needle hay : String) : Bool := subStrL needle.toList hay.toList

/-- `ContactManager.search_contacts`: lowercased query against
`(name.lower() or "")` and against `(phone or "")` — the phone is NOT
lowercased. -/
def searchContacts (query : String) (contacts : List Contact) :
    List Contact :=
  contacts.filter (fun c =>
    pyInStr (strLower query) (pyOrStr (strLower c.name) "") ||
    pyInStr (strLower query) (pyOrOptStr c.phone ""))

/-- The search the claim describes: case-insensitive on name OR phone
(both sides lowercased).  Spec-side definition, for comparison only. -/
def searchContactsSpec (query : String) (contacts : List Contact) :
    List Contact :=
  contacts.filter (fun c =>
    pyInStr (strLower query) (strLower c.name) ||
    pyInStr (strLower query) (strLower (c.phone.getD "")))

/-- The contact of the C9 counterexample: phone `"AB"` contains letters
(the store never validates, per the spec). -/
def c9Contact : Contact := ⟨1, "x", some "AB", none⟩

/-- C9 counterexample: for query `"AB"` the claimed case-insensitive
phone match selects the contact, but the code lowercases only the query
(`"ab"`), which is not a substring of the raw phone `"AB"`, so the code
returns nothing. -/
theorem c9_search_counterexample :
    searchContacts "AB" [c9Contact] = [] ∧
    searchContactsSpec "AB" [c9Contact] = [c9Contact] := by
  constructor <;> rfl

/-- Python `s or ""` is `s`. -/
theorem pyOrStr_empty_right (s : String) : pyOrStr s "" = s := by
  unfold pyOrStr
  split
  · rename_i h
    exact ((String.isEmpty_iff s).mp h).symm
  · rfl

/-- Characterization of `startsWithL`. -/
theorem startsWithL_iff (n : List Char) :
    ∀ h : List Char, startsWithL n h = true ↔ ∃ rest, h = n ++ rest := by
  induction n with
  | nil =>
    intro h
    simp [startsWithL]
  | cons a as ih =>
    intro h
    cases h with
    | nil =>
      simp only [startsWithL]
      constructor
      · intro hfalse; cases hfalse
      · rintro ⟨rest, hrest⟩; cases hrest
    | cons b bs =>
      simp only [startsWithL, Bool.and_eq_true, beq_iff_eq]
      constructor
      · rintro ⟨hab, hs⟩
        rcases (ih bs).mp hs with ⟨rest, hrest⟩
        exact ⟨rest, by rw [hab, hrest]; rfl⟩
      · rintro ⟨rest, hrest⟩
        rw [List.cons_append] at hrest
        injection hrest with h1 h2
        exact ⟨h1.symm, (ih bs).mpr ⟨rest, h2⟩⟩

/-- Characterization of `subStrL`: genuine substring occurrence. -/
theorem subStrL_iff (n : List Char) :
    ∀ h : List Char, subStrL n h = true ↔
      ∃ pre post, h = pre ++ n ++ post := by
  intro h
  induction h with
  | nil =>
    simp only [subStrL, List.isEmpty_iff]
    constructor
    · intro hn; exact ⟨[], [], by simp [hn]⟩
    · rintro ⟨pre, post, hsplit⟩
      rcases List.append_eq_nil.mp (List.append_eq_nil.mp hsplit.symm).1
        with ⟨-, h2⟩
      exact h2
  | cons b bs ih =>
    simp only [subStrL, Bool.or_eq_true]
    constructor
    · rintro (hs | hs)
      · rcases (startsWithL_iff n (b :: bs)).mp hs with ⟨rest, hrest⟩
        exact ⟨[], rest, by simpa using hrest⟩
      · rcases ih.mp hs with ⟨pre, post, hsplit⟩
        exact ⟨b :: pre, post, by simp [hsplit]⟩
    · rintro ⟨pre, post, hsplit⟩
      cases pre with
      | nil =>
        left
        exact (startsWithL_iff n (b :: bs)).mpr ⟨post, by simpa using hsplit⟩
      | cons p ps =>
        right
        rw [List.cons_append, List.cons_append] at hsplit
        injection hsplit with h1 h2
        exact ih.mpr ⟨ps, post, h2⟩

/-- C9 amended: a contact is returned exactly when the lowercased query
occurs as a substring of the lowercased name, or as a substring of the
phone string as stored (`""` when the phone is `None` or empty) — so the
name match is case-insensitive, while the phone is matched against the
lowercased query case-sensitively; a contact with no phone can match only
via its name (or an empty query). -/
theorem c9_search_contacts_amended (query : String)
    (contacts : List Contact) (c : Contact) :
    c ∈ searchContacts query contacts ↔
      c ∈ contacts ∧
      ((∃ pre post, (strLower c.name).toList =
          pre ++ (strLower query).toList ++ post) ∨
       (∃ pre post, (pyOrOptStr c.phone "").toList =
          pre ++ (strLower query).toList ++ post)) := by
  unfold searchContacts
  rw [List.mem_filter, Bool.or_eq_true, pyOrStr_empty_right]
  unfold pyInStr
  rw [subStrL_iff, subStrL_iff]

/-! ### CSV import (`import_from_csv` of the four managers)

A CSV row is the field map `csv.DictReader` yields.  Notes mint a fresh
id (`max(ids, default 0) + 1`) for every row; Contacts and Tasks parse
the id from the file and skip rows whose id already exists; Finance mints
fresh ids via `add_record`.  Each import loop is embedded as a structural
recursion over the row list, one step per loop iteration.  Only the
Contact import guards on `os.path.exists`; the other three open the file
unconditionally. -/

/-- A row of a notes CSV (`id` is ignored by the import). -/
structure NoteRow where
  title : String
  content : String
  timestamp : String
  deriving DecidableEq, Repr

/-- A row of a contacts CSV. -/
structure ContactRow where
  id : Int
  name : String
  phone : Option String
  email : Option String
  deriving DecidableEq, Repr

/-- A row of a tasks CSV (`done` still textual, parsed by the import). -/
structure TaskRow where
  id : Int
  title : String
  description : String
  done : String
  priority : String
  dueDate : String
  deriving DecidableEq, Repr

/-- A row of a finance CSV (`id` is ignored by the import). -/
structure FinanceRow where
  amount : Int
  category : String
  date : String
  description : String
  deriving DecidableEq, Repr

/-- The contact built from a CSV row (id taken verbatim from the file). -/
def contactOfRow (row : ContactRow) : Contact :=
  ⟨row.id, row.name, row.phone, row.email⟩

/-- `NoteManager.import_from_csv` body: every row is appended with the
freshly minted id `max(ids, default 0) + 1` computed over the current
list. -/
def importNotesCsv (now : String) : List NoteRow → List Note → List Note
  | [], notes => notes
  | row :: rows, notes =>
    importNotesCsv now rows
      (notes ++ [Note.init now (nextNoteId notes) row.title row.content
        (some row.timestamp)])

/-- `ContactManager.import_from_csv` body: a row whose id already exists
in the current list is skipped, otherwise it is appended verbatim. -/
def importContactsCsv : List ContactRow → List Contact → List Contact
  | [], contacts => contacts
  | row :: rows, contacts =>
    importContactsCsv rows
      (if contacts.any (fun c => c.id == row.id) then contacts
       else contacts ++ [contactOfRow row])

/-- `TaskManager.import_from_csv` body: same skip-on-existing-id policy
as contacts; `done` is parsed by lowercased comparison with `"true"`. -/
def importTasksCsv : List TaskRow → List TaskRec → List TaskRec
  | [], tasks => tasks
  | row :: rows, tasks =>
    importTasksCsv rows
      (if tasks.any (fun t => t.id == row.id) then tasks
       else tasks ++ [⟨row.id, row.title, row.description,
         strLower row.done == "true", row.priority, some row.dueDate⟩])

/-- `FinanceManager.add_record`. -/
def addRecord (amount : Int) (category date description : String)
    (l : List FinanceRecord) : List FinanceRecord :=
  l ++ [⟨pyMaxD0 (l.map FinanceRecord.id) + 1, amount, category, date,
    description⟩]

/-- `FinanceManager.import_from_csv` body: each row goes through
`add_record`, minting a fresh id. -/
def importFinanceCsv : List FinanceRow → List FinanceRecord → List FinanceRecord
  | [], records => records
  | row :: rows, records =>
    importFinanceCsv rows
      (addRecord row.amount row.category row.date row.description records)

/-- The block of notes appended by one import pass, ids `i, i+1, …`. -/
def noteBatch (now : String) (i : Int) : List NoteRow → List Note
  | [] => []
  | r :: rs =>
    Note.init now i r.title r.content (some r.timestamp) ::
      noteBatch now (i + 1) rs

/-- Membership in the id map, as the Python `any` test. -/
theorem contact_any_id_iff (i : Int) (l : List Contact) :
    (l.any (fun c => c.id == i)) = true ↔ i ∈ l.map Contact.id := by
  rw [List.any_eq_true]
  constructor
  · rintro ⟨c, hc, hbeq⟩
    exact List.mem_map.mpr ⟨c, hc, beq_iff_eq.mp hbeq⟩
  · intro hm
    rcases List.mem_map.mp hm with ⟨c, hc, hid⟩
    exact ⟨c, hc, beq_iff_eq.mpr hid⟩

/-- One import pass appends exactly the batch with ids starting at
`nextNoteId` of the starting list. -/
theorem importNotesCsv_eq_batch (now : String) :
    ∀ (rows : List NoteRow) (l : List Note),
      importNotesCsv now rows l = l ++ noteBatch now (nextNoteId l) rows := by
  intro rows
  induction rows with
  | nil => intro l; simp [importNotesCsv, noteBatch]
  | cons r rs ih =>
    intro l
    show importNotesCsv now rs
        (l ++ [Note.init now (nextNoteId l) r.title r.content
          (some r.timestamp)]) = _
    rw [ih, nextNoteId_snoc_fresh l _ rfl]
    rw [List.append_assoc]
    rfl

/-- Ids of a batch lie in `[i, i + length)`. -/
theorem noteBatch_id_bounds (now : String) :
    ∀ (rows : List NoteRow) (i : Int), ∀ n ∈ noteBatch now i rows,
      i ≤ n.id ∧ n.id < i + rows.length := by
  intro rows
  induction rows with
  | nil => intro i n hn; cases hn
  | cons r rs ih =>
    intro i n hn
    rcases List.mem_cons.mp hn with h | h
    · subst h
      refine ⟨le_refl _, ?_⟩
      show i < i + ((rs.length : Int) + 1)
      omega
    · have hb := ih (i + 1) n h
      refine ⟨by omega, ?_⟩
      show n.id < i + ((rs.length : Int) + 1)
      omega

/-- A batch copies the row contents in order. -/
theorem noteBatch_fields (now : String) :
    ∀ (rows : List NoteRow) (i : Int),
      (noteBatch now i rows).map (fun n => (n.title, n.content)) =
        rows.map (fun r => (r.title, r.content)) := by
  intro rows
  induction rows with
  | nil => intro i; rfl
  | cons r rs ih =>
    intro i
    show ((Note.init now i r.title r.content (some r.timestamp)).title,
        (Note.init now i r.title r.content (some r.timestamp)).content) ::
        (noteBatch now (i + 1) rs).map (fun n => (n.title, n.content)) =
      (r.title, r.content) :: rs.map (fun r => (r.title, r.content))
    rw [ih (i + 1)]
    rfl

/-- After a nonempty import pass the next fresh id has advanced by the
number of rows. -/
theorem nextNoteId_importNotesCsv (now : String) :
    ∀ (rows : List NoteRow) (l : List Note), rows ≠ [] →
      nextNoteId (importNotesCsv now rows l) = nextNoteId l + rows.length := by
  intro rows
  induction rows with
  | nil => intro l h; exact absurd rfl h
  | cons r rs ih =>
    intro l _
    show nextNoteId (importNotesCsv now rs
      (l ++ [Note.init now (nextNoteId l) r.title r.content
        (some r.timestamp)])) = nextNoteId l + ((r :: rs).length : Int)
    by_cases hrs : rs = []
    · subst hrs
      show nextNoteId (l ++ [_]) = nextNoteId l + ((1 : Nat) : Int)
      rw [nextNoteId_snoc_fresh l _ rfl]
      push_cast
      ring
    · rw [ih _ hrs, nextNoteId_snoc_fresh l _ rfl]
      simp only [List.length_cons]
      push_cast
      ring

/-- C7: contact import never creates a duplicate id — rows whose id is
already present are skipped, rows with new ids are appended with their
file-given id — while importing the same notes CSV twice appends two
full copies of the rows, each with freshly minted consecutive ids, the
second batch's ids disjoint from the first batch's. -/
theorem c7_import_dedup_policies :
    (∀ (rows : List ContactRow) (cs : List Contact),
      (cs.map Contact.id).Nodup →
        ((importContactsCsv rows cs).map Contact.id).Nodup) ∧
    (∀ (row : ContactRow) (cs : List Contact),
      row.id ∈ cs.map Contact.id → importContactsCsv [row] cs = cs) ∧
    (∀ (row : ContactRow) (cs : List Contact),
      row.id ∉ cs.map Contact.id →
        importContactsCsv [row] cs = cs ++ [contactOfRow row]) ∧
    (∀ (now : String) (rows : List NoteRow) (ns : List Note),
      importNotesCsv now rows (importNotesCsv now rows ns) =
        (ns ++ noteBatch now (nextNoteId ns) rows) ++
          noteBatch now (nextNoteId (importNotesCsv now rows ns)) rows ∧
      (noteBatch now (nextNoteId ns) rows).map
          (fun n => (n.title, n.content)) =
        rows.map (fun r => (r.title, r.content)) ∧
      (∀ a ∈ noteBatch now (nextNoteId ns) rows,
        ∀ b ∈ noteBatch now (nextNoteId (importNotesCsv now rows ns)) rows,
          a.id ≠ b.id)) := by
  have hnodup : ∀ (rows : List ContactRow) (cs : List Contact),
      (cs.map Contact.id).Nodup →
        ((importContactsCsv rows cs).map Contact.id).Nodup := by
    intro rows
    induction rows with
    | nil => intro cs h; exact h
    | cons r rs ih =>
      intro cs h
      show ((importContactsCsv rs
        (if cs.any (fun c => c.id == r.id) then cs
         else cs ++ [contactOfRow r])).map Contact.id).Nodup
      cases hany : cs.any (fun c => c.id == r.id) with
      | true =>
        rw [if_pos rfl]
        exact ih cs h
      | false =>
        rw [if_neg Bool.false_ne_true]
        refine ih (cs ++ [contactOfRow r]) ?_
        have hnotmem : r.id ∉ cs.map Contact.id := by
          intro hm
          have := (contact_any_id_iff r.id cs).mpr hm
          rw [hany] at this
          cases this
        rw [List.map_append, List.nodup_append]
        refine ⟨h, List.nodup_singleton _, ?_⟩
        intro x hx hy
        rcases List.mem_singleton.mp hy with rfl
        exact hnotmem hx
  refine ⟨hnodup, ?_, ?_, ?_⟩
  · intro row cs hmem
    show importContactsCsv []
      (if cs.any (fun c => c.id == row.id) then cs
       else cs ++ [contactOfRow row]) = cs
    rw [(contact_any_id_iff row.id cs).mpr hmem]
    rfl
  · intro row cs habs
    show importContactsCsv []
      (if cs.any (fun c => c.id == row.id) then cs
       else cs ++ [contactOfRow row]) = cs ++ [contactOfRow row]
    cases hany : cs.any (fun c => c.id == row.id) with
    | true => exact absurd ((contact_any_id_iff row.id cs).mp hany) habs
    | false =>
      rw [if_neg Bool.false_ne_true]
      rfl
  · intro now rows ns
    refine ⟨?_, noteBatch_fields now rows (nextNoteId ns), ?_⟩
    · rw [importNotesCsv_eq_batch now rows (importNotesCsv now rows ns),
        importNotesCsv_eq_batch now rows ns]
    · intro a ha b hb
      cases hrows : rows with
      | nil => rw [hrows] at ha; cases ha
      | cons r rs =>
        have hbound1 := noteBatch_id_bounds now rows (nextNoteId ns) a ha
        have hbound2 := noteBatch_id_bounds now rows
          (nextNoteId (importNotesCsv now rows ns)) b hb
        have hadv := nextNoteId_importNotesCsv now rows ns
          (by rw [hrows]; exact List.cons_ne_nil r rs)
        rw [hadv] at hbound2
        omega

/-- Witness for C7 at concrete inputs: a duplicate-id contact row is
skipped, a fresh one appended; the two batches of a double notes import
have disjoint ids. -/
theorem c7_import_dedup_policies_witness :
    importContactsCsv [⟨1, "dup", none, none⟩] [⟨1, "a", none, none⟩] =
      [⟨1, "a", none, none⟩] ∧
    importContactsCsv [⟨2, "new", none, none⟩] [⟨1, "a", none, none⟩] =
      [⟨1, "a", none, none⟩, ⟨2, "new", none, none⟩] ∧
    ((importContactsCsv [⟨3, "x", none, none⟩]
        [⟨1, "a", none, none⟩]).map Contact.id).Nodup ∧
    (∀ a ∈ noteBatch "T" (nextNoteId []) [⟨"t", "c", "ts"⟩],
      ∀ b ∈ noteBatch "T"
          (nextNoteId (importNotesCsv "T" [⟨"t", "c", "ts"⟩] []))
          [⟨"t", "c", "ts"⟩], a.id ≠ b.id) := by
  refine ⟨c7_import_dedup_policies.2.1 ⟨1, "dup", none, none⟩
      [⟨1, "a", none, none⟩] (by decide), ?_, ?_,
    (c7_import_dedup_policies.2.2.2 "T" [⟨"t", "c", "ts"⟩] []).2.2⟩
  · have h := c7_import_dedup_policies.2.2.1 ⟨2, "new", none, none⟩
      [⟨1, "a", none, none⟩] (by decide)
    simpa using h
  · exact c7_import_dedup_policies.1 [⟨3, "x", none, none⟩]
      [⟨1, "a", none, none⟩] (by decide)

/-! ### Missing CSV files (C10) -/

/-- Error raised by `open` on a missing path. -/
inductive CsvErr where
  | fileNotFound
  deriving DecidableEq, Repr

/-- `NoteManager.import_from_csv` at file level: opens unconditionally,
so a missing path raises `FileNotFoundError`; otherwise imports and
saves (the Bool records that `save` ran). -/
def importNotesCsvFile (now : String) (file : Option (List NoteRow))
    (notes : List Note) : Except CsvErr (List Note × Bool) :=
  match file with
  | none => .error .fileNotFound
  | some rows => .ok (importNotesCsv now rows notes, true)

/-- `TaskManager.import_from_csv` at file level: opens unconditionally. -/
def importTasksCsvFile (file : Option (List TaskRow))
    (tasks : List TaskRec) : Except CsvErr (List TaskRec × Bool) :=
  match file with
  | none => .error .fileNotFound
  | some rows => .ok (importTasksCsv rows tasks, true)

/-- `FinanceManager.import_from_csv` at file level: opens
unconditionally. -/
def importFinanceCsvFile (file : Option (List FinanceRow))
    (records : List FinanceRecord) :
    Except CsvErr (List FinanceRecord × Bool) :=
  match file with
  | none => .error .fileNotFound
  | some rows => .ok (importFinanceCsv rows records, true)

/-- `ContactManager.import_from_csv` at file level: the whole body —
including the final `save_contacts` — sits under `if
os.path.exists(csv_file):`, so a missing path is a silent no-op and
nothing is saved. -/
def importContactsCsvFile (file : Option (List ContactRow))
    (contacts : List Contact) : List Contact × Bool :=
  match file with
  | none => (contacts, false)
  | some rows => (importContactsCsv rows contacts, true)

/-- C10: importing contacts from a missing path leaves the contact list
unchanged, does not rewrite the backing file and does not raise, whereas
the note, task and finance imports raise `FileNotFoundError` on a
missing path. -/
theorem c10_missing_csv_behavior (now : String) (ns : List Note)
    (cs : List Contact) (ts : List TaskRec) (rs : List FinanceRecord) :
    importContactsCsvFile none cs = (cs, false) ∧
    importNotesCsvFile now none ns = .error .fileNotFound ∧
    importTasksCsvFile none ts = .error .fileNotFound ∧
    importFinanceCsvFile none rs = .error .fileNotFound :=
  ⟨rfl, rfl, rfl, rfl⟩
